import Mathlib

/-!
Shallow embedding of the search-helper job pipeline and proofs of its
specification claims.

The embedding follows the Python sources:
* `processor.py` — the `Job` model and `JobProcessor` (keyword filtering,
  url deduplication, company / location-tier-then-recency ordering);
* `storage.py`  — the `JobStorage` history store (load, is_new,
  filter_new_jobs, sync_with_current_jobs);
* `config.py`   — the default keyword lists and the location priority table;
* `main.py`     — the store-state flow of one pipeline run.

External collaborators (the `datetime` library's ISO parsing and the email
delivery channel) are abstracted as explicit function / boolean parameters.
-/

/-- Python substring test `sub in l` over lists of characters: `sub`
occurs contiguously inside `l` (the empty list occurs in everything). -/
def charsContain : List Char → List Char → Bool
  | [], sub => sub.isEmpty
  | c :: rest, sub => sub.isPrefixOf (c :: rest) || charsContain rest sub

/-- Python substring test `sub in s` on strings. -/
def strContains (s sub : String) : Bool :=
  charsContain s.data sub.data

/-- Python `str.lower()`: per-character lower-casing, written on the
character list so that the kernel can evaluate it. -/
def strToLower (s : String) : String :=
  ⟨s.data.map Char.toLower⟩

/-- Normalized job representation (`Job` dataclass, `processor.py`). -/
structure Job where
  id : String
  title : String
  company : String
  location : String
  url : String
  posted_at : Option String := none
  department : Option String := none
deriving Repr, DecidableEq

/-- Default title-include keywords (`TITLE_INCLUDE_KEYWORDS`, `config.py`). -/
def TITLE_INCLUDE_KEYWORDS : List String :=
  ["gl accountant", "general ledger", "staff accountant", "senior accountant",
   "corporate accountant", "financial accountant", "accountant",
   "accounting analyst", "sec reporting", "financial reporting",
   "technical accounting"]

/-- Default title-exclude keywords (`TITLE_EXCLUDE_KEYWORDS`, `config.py`). -/
def TITLE_EXCLUDE_KEYWORDS : List String :=
  ["manager", "director", "head of", "vp", "vice president", "controller",
   "chief", "lead", "principal", "cfo", "accounts receivable", "payroll",
   "tax accountant", "tax analyst", "billing", "collections",
   "credit analyst", "accounts payable manager", "software engineer",
   "product", "data engineer"]

/-- Default location keywords (`LOCATION_KEYWORDS`, `config.py`). -/
def LOCATION_KEYWORDS : List String :=
  ["san francisco", "sf", "remote", "hybrid", "anywhere",
   "work from home", "wfh"]

/-- Location priority table (`LOCATION_PRIORITY`, `config.py`), in the
dict's insertion order; lower value = higher priority. -/
def LOCATION_PRIORITY : List (String × Nat) :=
  [("san francisco", 1), ("sf", 1), ("remote", 2), ("work from home", 2),
   ("wfh", 2), ("anywhere", 2), ("hybrid", 2)]

/-- Keyword-list state of a `JobProcessor` after `__init__` has run
(all keywords lower-cased). -/
structure JobProcessor where
  include_keywords : List String
  exclude_keywords : List String
  location_keywords : List String
deriving Repr, DecidableEq

/-- Python `arg or default` for an optional list argument of `__init__`:
both `None` and the (falsy) empty list fall back to the default. -/
def orDefault (arg : Option (List String)) (dflt : List String) : List String :=
  match arg with
  | none => dflt
  | some [] => dflt
  | some (k :: ks) => k :: ks

/-- `JobProcessor.__init__`: each keyword list defaults via Python `or`
and is lower-cased. -/
def JobProcessor.init (inc exc loc : Option (List String)) : JobProcessor :=
  { include_keywords := (orDefault inc TITLE_INCLUDE_KEYWORDS).map strToLower
    exclude_keywords := (orDefault exc TITLE_EXCLUDE_KEYWORDS).map strToLower
    location_keywords := (orDefault loc LOCATION_KEYWORDS).map strToLower }

/-- `JobProcessor._matches_title_include`. -/
def JobProcessor.matches_title_include (p : JobProcessor) (title : String) : Bool :=
  p.include_keywords.any (fun keyword => strContains (strToLower title) keyword)

/-- `JobProcessor._matches_title_exclude`. -/
def JobProcessor.matches_title_exclude (p : JobProcessor) (title : String) : Bool :=
  p.exclude_keywords.any (fun keyword => strContains (strToLower title) keyword)

/-- `JobProcessor._matches_location` (an empty location string is falsy
in Python and never matches). -/
def JobProcessor.matches_location (p : JobProcessor) (location : String) : Bool :=
  if location = "" then false
  else p.location_keywords.any (fun keyword => strContains (strToLower location) keyword)

/-- `JobProcessor._matches_criteria`. -/
def JobProcessor.matches_criteria (p : JobProcessor) (job : Job) : Bool :=
  p.matches_title_include job.title &&
  !p.matches_title_exclude job.title &&
  p.matches_location job.location

/-- `JobProcessor.filter_jobs`: the append loop keeps exactly the jobs
satisfying `_matches_criteria`, in input order. -/
def JobProcessor.filter_jobs (p : JobProcessor) (jobs : List Job) : List Job :=
  jobs.filter (fun job => p.matches_criteria job)

/-- Loop body of `JobProcessor.deduplicate` with the `seen_urls` set made
explicit as the list of urls added so far. -/
def dedupLoop : List String → List Job → List Job
  | _, [] => []
  | seen, job :: rest =>
    if job.url ∈ seen then dedupLoop seen rest
    else job :: dedupLoop (job.url :: seen) rest

/-- `JobProcessor.deduplicate`: drop every job whose url was already seen. -/
def JobProcessor.deduplicate (_p : JobProcessor) (jobs : List Job) : List Job :=
  dedupLoop [] jobs

/-- Comparison used by `JobProcessor.sort_by_company`
(`key=lambda j: j.company.lower()`, ascending). -/
def companyLe (a b : Job) : Bool :=
  decide (strToLower a.company ≤ strToLower b.company)

/-- `JobProcessor.sort_by_company`: Python `sorted` is a stable merge
sort on the key. -/
def JobProcessor.sort_by_company (_p : JobProcessor) (jobs : List Job) : List Job :=
  jobs.mergeSort companyLe

/-- `JobProcessor._get_location_priority`: minimum priority over the
table keywords occurring in the lower-cased location, 999 by default;
an empty location short-circuits to 999. -/
def get_location_priority (location : String) : Nat :=
  if location = "" then 999
  else LOCATION_PRIORITY.foldl
    (fun best kp => if strContains (strToLower location) kp.1 then min best kp.2 else best)
    999

/-- Model of Python `date_str.replace('Z', '+00:00')`: every occurrence
of the character `Z` is replaced by the six characters `+00:00`. -/
def replaceZ (s : String) : String :=
  ⟨s.data.foldr
    (fun c acc =>
      if c = 'Z' then '+' :: '0' :: '0' :: ':' :: '0' :: '0' :: acc
      else c :: acc)
    []⟩

/-- `JobProcessor._date_to_timestamp`. The external library call
`int(datetime.fromisoformat(s).timestamp())` is abstracted as `parseIso`
(`none` models the `ValueError` branch); an empty string and a parse
failure both yield 0. -/
def date_to_timestamp (parseIso : String → Option Int) (date_str : String) : Int :=
  if date_str = "" then 0
  else
    match parseIso (replaceZ date_str) with
    | some t => t
    | none => 0

/-- Sort key of `sort_by_location_then_date`:
`(location_priority, -timestamp)`; a missing `posted_at` is replaced by
the empty string (Python `job.posted_at or ""`). -/
def locationDateKey (parseIso : String → Option Int) (job : Job) : Nat × Int :=
  (get_location_priority job.location,
   -(date_to_timestamp parseIso (job.posted_at.getD "")))

/-- Non-strict lexicographic order on the `(tier, -timestamp)` keys, the
order `sorted` realizes on the key tuples. -/
def keyLe (parseIso : String → Option Int) (a b : Job) : Bool :=
  decide ((locationDateKey parseIso a).1 < (locationDateKey parseIso b).1 ∨
    ((locationDateKey parseIso a).1 = (locationDateKey parseIso b).1 ∧
     (locationDateKey parseIso a).2 ≤ (locationDateKey parseIso b).2))

/-- `JobProcessor.sort_by_location_then_date`: stable merge sort by
location tier ascending then timestamp descending. -/
def JobProcessor.sort_by_location_then_date (_p : JobProcessor)
    (parseIso : String → Option Int) (jobs : List Job) : List Job :=
  jobs.mergeSort (keyLe parseIso)

/-- Persisted per-id record (`storage.py`, entries of `seen_jobs`). -/
structure HistoryRecord where
  title : String
  company : String
  url : String
  first_seen : String
deriving Repr, DecidableEq

/-- In-memory state of `JobStorage.seen_jobs`: Python dicts are
insertion-ordered maps with unique keys, modelled as an association
list in insertion order. -/
abbrev Store := List (String × HistoryRecord)

namespace JobStorage

/-- Key list of the mapping, in insertion order. -/
def keys (st : Store) : List String := st.map Prod.fst

/-- Dict lookup `seen_jobs[id]` (first binding wins; with unique keys
this is the dict semantics). -/
def lookup : Store → String → Option HistoryRecord
  | [], _ => none
  | e :: rest, id => if e.1 = id then some e.2 else lookup rest id

/-- `JobStorage.is_new`: true iff the job id has no record. -/
def is_new (st : Store) (job : Job) : Bool :=
  !decide (job.id ∈ keys st)

/-- `JobStorage.get_first_seen`. -/
def get_first_seen (st : Store) (job : Job) : Option String :=
  (lookup st job.id).map (fun r => r.first_seen)

/-- `JobStorage.filter_new_jobs`: keeps only unseen ids, in input order. -/
def filter_new_jobs (st : Store) (jobs : List Job) : List Job :=
  jobs.filter (fun job => is_new st job)

/-- Record inserted by `sync_with_current_jobs` for a newly seen job:
`first_seen` is the current time `now`. -/
def mkRecord (now : String) (job : Job) : HistoryRecord :=
  { title := job.title, company := job.company, url := job.url,
    first_seen := now }

/-- The `closed_jobs` list of `sync_with_current_jobs`: ids in the store
that are absent from the current id set. -/
def closedIds (st : Store) (current_ids : List String) : List String :=
  (keys st).filter (fun id => decide (¬ id ∈ current_ids))

/-- Deletion phase of `sync_with_current_jobs`: `del` of every closed id
keeps exactly the records whose id is current, preserving order. -/
def removeClosed (st : Store) (current_ids : List String) : Store :=
  st.filter (fun e => decide (e.1 ∈ current_ids))

/-- Insertion loop of `sync_with_current_jobs`: jobs whose id is absent
are appended (dict insertion puts new keys at the end) with a fresh
record; the second component counts the insertions (`new_count`). -/
def insertLoop (now : String) : Store → List Job → Store × Nat
  | st, [] => (st, 0)
  | st, job :: rest =>
    if job.id ∈ keys st then insertLoop now st rest
    else
      let p := insertLoop now (st ++ [(job.id, mkRecord now job)]) rest
      (p.1, p.2 + 1)

/-- `JobStorage.sync_with_current_jobs`: delete closed ids, then insert
the unseen current jobs with `first_seen = now`. -/
def sync_with_current_jobs (now : String) (st : Store) (current_jobs : List Job) : Store :=
  (insertLoop now (removeClosed st (current_jobs.map Job.id)) current_jobs).1

/-- Number of deletions a `sync_with_current_jobs` call performs
(`len(closed_jobs)`). -/
def sync_deleted (st : Store) (current_jobs : List Job) : Nat :=
  (closedIds st (current_jobs.map Job.id)).length

/-- Number of insertions a `sync_with_current_jobs` call performs
(`new_count`). -/
def sync_inserted (now : String) (st : Store) (current_jobs : List Job) : Nat :=
  (insertLoop now (removeClosed st (current_jobs.map Job.id)) current_jobs).2

/-- Outcome of reading the history file in `JobStorage._load`: the
file may be absent (`os.path.exists` is false); opening or reading it
may raise `IOError`; `json.load` may raise `JSONDecodeError` on invalid
JSON, or `UnicodeDecodeError` (a `ValueError` that is neither
`JSONDecodeError` nor `IOError`) on undecodable bytes; the parse may
succeed with a top-level value that is not an object, on which
`data.get` raises `AttributeError`; or the parse succeeds with a
top-level object whose jobs field (defaulted to empty by
`data.get("jobs", \x7b\x7d)`) is a mapping. -/
inductive ReadOutcome where
  | absent
  | ioError
  | jsonError
  | undecodableBytes
  | topLevelNotObject
  | parsed (jobs : Store)

/-- `JobStorage._load`: on an `ok` result the store holds the resulting
in-memory mapping together with whether the warning branch ran; the
`except` clause at `storage.py:37` names only `JSONDecodeError` and
`IOError`, so `UnicodeDecodeError` and `AttributeError` escape it —
modelled as `Except.error` carrying the exception that propagates out
of `_load` and crashes the run. -/
def load : ReadOutcome → Except String (Store × Bool)
  | .absent => .ok ([], false)
  | .ioError => .ok ([], true)
  | .jsonError => .ok ([], true)
  | .undecodableBytes => .error "UnicodeDecodeError"
  | .topLevelNotObject => .error "AttributeError"
  | .parsed jobs => .ok (jobs, false)

/-- Modelled from the spec: the history store's `cleanup(max_age_days)`
operation appears in spec §4.2 but is not among the provided source
files (`storage.py` has no `cleanup`). Following the spec's words, it
deletes exactly the records whose `first_seen` is older than the
threshold; the age in whole days of a `first_seen` timestamp relative
to now is supplied by the external clock/date library as `ageInDays`. -/
def cleanup (ageInDays : String → Nat) (max_age_days : Nat) (st : Store) : Store :=
  st.filter (fun e => decide (ageInDays e.2.first_seen ≤ max_age_days))

end JobStorage

/-- Command-line flags of `main.py`. -/
structure Args where
  dry_run : Bool
  no_filter : Bool
  reset_history : Bool
deriving Repr, DecidableEq

/-- The processor `main` constructs: `JobProcessor()` with all keyword
lists defaulted. -/
def defaultProcessor : JobProcessor :=
  JobProcessor.init none none none

/-- Store-state flow of one run of `main` (`main.py`): an optional
history reset, filtering (unless `--no-filter`), deduplication, and —
only when `send_digest` reported success — the history sync. Fetching,
console printing and digest rendering do not touch the store and are
abstracted: `fetched` is the fetch result, `send_success` the boolean
`send_digest` returned, `st0` the mapping `_load` produced at start.
Returns the mapping at process exit and the exit code. -/
def runMain (args : Args) (parseIso : String → Option Int) (fetched : List Job)
    (st0 : Store) (send_success : Bool) (now : String) : Store × Nat :=
  let st1 := if args.reset_history then ([] : Store) else st0
  let filtered := if args.no_filter then fetched else defaultProcessor.filter_jobs fetched
  let unique := defaultProcessor.deduplicate filtered
  let new_jobs := JobStorage.filter_new_jobs st1 unique
  let _all_sorted := defaultProcessor.sort_by_location_then_date parseIso unique
  let _hot_jobs := (defaultProcessor.sort_by_location_then_date parseIso new_jobs).take 5
  let final :=
    if send_success then JobStorage.sync_with_current_jobs now st1 unique else st1
  (final, if send_success then 0 else 1)

/-- Specification-side restatement of the C6 contract: keep, for each
distinct url, only the first job (in input order) bearing that url,
dropping every later job with the same url. -/
def dedupFirstByUrl : List Job → List Job
  | [] => []
  | job :: rest =>
    job :: dedupFirstByUrl (rest.filter (fun k => decide (k.url ≠ job.url)))
termination_by l => l.length
decreasing_by
  simp only [List.length_cons]
  exact Nat.lt_succ_of_le (List.length_filter_le _ _)

/-- Concrete matching job used in witnesses and counterexamples. -/
def jobSeniorAccountant : Job :=
  { id := "j1", title := "Senior Accountant", company := "Acme",
    location := "Remote", url := "https://a/1" }

/-- Model of the library behavior on the one pre-epoch aware timestamp
used in the C7 counterexample:
`int(datetime.fromisoformat("1950-01-01T00:00:00+00:00").timestamp())`
is −631152000. -/
def parseIso1950 : String → Option Int :=
  fun s => if s = "1950-01-01T00:00:00+00:00" then some (-631152000) else none

/-- Concrete job with no posting date (tier 999). -/
def jobNoDate : Job :=
  { id := "a", title := "t", company := "c", location := "", url := "ua" }

/-- Concrete job posted before the Unix epoch (tier 999). -/
def jobPreEpoch : Job :=
  { id := "b", title := "t", company := "c", location := "", url := "ub",
    posted_at := some "1950-01-01T00:00:00Z" }

/-- Record used by the storage witnesses and the C1 counterexample. -/
def recOld : HistoryRecord :=
  { title := "Old role", company := "OldCo", url := "u0",
    first_seen := "2020-01-01T00:00:00" }

/-- Age table for the C8 witness: the record first seen at "d91" is 91
days old, the one first seen at "d89" is 89 days old. -/
def ageC8 : String → Nat :=
  fun s => if s = "d91" then 91 else 89

/-- Record 91 days old. -/
def rec91 : HistoryRecord :=
  { title := "r91", company := "c", url := "u91", first_seen := "d91" }

/-- Record 89 days old. -/
def rec89 : HistoryRecord :=
  { title := "r89", company := "c", url := "u89", first_seen := "d89" }

/-! ## Filtering lemmas and claims C2, C5 -/

/-- Characterization of the title-include test. -/
theorem matches_title_include_iff (p : JobProcessor) (t : String) :
    p.matches_title_include t = true ↔
      ∃ kw ∈ p.include_keywords, strContains (strToLower t) kw = true := by
  simp [JobProcessor.matches_title_include, List.any_eq_true]

/-- Characterization of the title-exclude test. -/
theorem matches_title_exclude_iff (p : JobProcessor) (t : String) :
    p.matches_title_exclude t = true ↔
      ∃ kw ∈ p.exclude_keywords, strContains (strToLower t) kw = true := by
  simp [JobProcessor.matches_title_exclude, List.any_eq_true]

/-- Characterization of the location test: an empty location never
matches, a nonempty one matches iff some location keyword occurs. -/
theorem matches_location_iff (p : JobProcessor) (loc : String) :
    p.matches_location loc = true ↔
      loc ≠ "" ∧ ∃ kw ∈ p.location_keywords, strContains (strToLower loc) kw = true := by
  unfold JobProcessor.matches_location
  split
  · simp [*]
  · simp [List.any_eq_true, *]

/-- Characterization of the combined filter predicate. -/
theorem matches_criteria_iff (p : JobProcessor) (j : Job) :
    p.matches_criteria j = true ↔
      ((∃ kw ∈ p.include_keywords, strContains (strToLower j.title) kw = true) ∧
       ¬ (∃ kw ∈ p.exclude_keywords, strContains (strToLower j.title) kw = true) ∧
       (j.location ≠ "" ∧
        ∃ kw ∈ p.location_keywords, strContains (strToLower j.location) kw = true)) := by
  rw [JobProcessor.matches_criteria, Bool.and_eq_true, Bool.and_eq_true,
    Bool.not_eq_true', matches_title_include_iff, matches_location_iff,
    ← Bool.not_eq_true, matches_title_exclude_iff]
  tauto

/-- C2: `filter_jobs` keeps a job iff it is in the input, its case-folded
title contains some include keyword, its case-folded title contains no
exclude keyword, and its (nonempty) case-folded location contains some
location keyword; the combined predicate equals a reordered conjunction
of the same three independent tests, so evaluation order does not change
the result; and a title containing both an include and an exclude
keyword is always rejected. -/
theorem C2_filter_jobs_combined_predicate (p : JobProcessor) (jobs : List Job) (j : Job) :
    (j ∈ p.filter_jobs jobs ↔ j ∈ jobs ∧
      ((∃ kw ∈ p.include_keywords, strContains (strToLower j.title) kw = true) ∧
       ¬ (∃ kw ∈ p.exclude_keywords, strContains (strToLower j.title) kw = true) ∧
       (j.location ≠ "" ∧
        ∃ kw ∈ p.location_keywords, strContains (strToLower j.location) kw = true))) ∧
    (p.matches_criteria j =
      (p.matches_location j.location && !p.matches_title_exclude j.title &&
       p.matches_title_include j.title)) ∧
    ((∃ kw ∈ p.include_keywords, strContains (strToLower j.title) kw = true) →
     (∃ kw ∈ p.exclude_keywords, strContains (strToLower j.title) kw = true) →
     j ∉ p.filter_jobs jobs) := by
  refine ⟨?_, ?_, ?_⟩
  · simp [JobProcessor.filter_jobs, List.mem_filter, matches_criteria_iff]
  · unfold JobProcessor.matches_criteria
    cases p.matches_title_include j.title <;>
      cases p.matches_title_exclude j.title <;>
      cases p.matches_location j.location <;> rfl
  · intro _ hexc hmem
    rw [JobProcessor.filter_jobs, List.mem_filter] at hmem
    exact ((matches_criteria_iff p j).mp hmem.2).2.1 hexc

/-- C2 witness: the characterization instantiated at a concrete
processor, job list and job. -/
theorem C2_filter_jobs_combined_predicate_witness :
    jobSeniorAccountant ∈
      (JobProcessor.init none none none).filter_jobs [jobSeniorAccountant] := by
  have h := C2_filter_jobs_combined_predicate (JobProcessor.init none none none)
    [jobSeniorAccountant] jobSeniorAccountant
  refine h.1.mpr ⟨List.mem_singleton.mpr rfl, ?_, ?_, ?_, ?_⟩
  · exact ⟨"accountant", by decide, by decide⟩
  · decide
  · decide
  · exact ⟨"remote", by decide, by decide⟩

/-- C5 counterexample: a processor constructed with an explicitly empty
include list silently falls back to the nonempty default include
keywords (Python `include_keywords or TITLE_INCLUDE_KEYWORDS` treats the
empty list as falsy), so `filter_jobs` matches this job instead of
returning the empty list. -/
theorem C5_counterexample :
    (JobProcessor.init (some []) (some ["zzz"]) (some ["remote"])).filter_jobs
        [jobSeniorAccountant] = [jobSeniorAccountant] ∧
    [jobSeniorAccountant] ≠ ([] : List Job) := by
  constructor
  · decide
  · decide

/-- C5 (amended): a `JobProcessor` whose title-include keyword list is
empty matches no job at all: `filter_jobs` returns the empty list for
every input list. (The constructor, however, silently replaces an
explicitly passed empty include list by the nonempty defaults, so such
a processor cannot be obtained by passing `[]` — see the
counterexample.) -/
theorem C5_empty_include_matches_nothing (p : JobProcessor)
    (h : p.include_keywords = []) (jobs : List Job) :
    p.filter_jobs jobs = [] := by
  refine List.filter_eq_nil_iff.mpr ?_
  intro j _
  simp [JobProcessor.matches_criteria, JobProcessor.matches_title_include, h]

/-- C5 witness: the amended claim at a concrete processor with an empty
include-keyword field. -/
theorem C5_empty_include_matches_nothing_witness :
    (⟨[], ["x"], ["remote"]⟩ : JobProcessor).filter_jobs [jobSeniorAccountant] = [] :=
  C5_empty_include_matches_nothing ⟨[], ["x"], ["remote"]⟩ rfl [jobSeniorAccountant]

/-! ## Deduplication: claim C6 -/

/-- The seen-set loop of `deduplicate` computes first-occurrence
deduplication of the jobs whose url is not already seen. -/
theorem dedupLoop_eq_dedupFirst (l : List Job) :
    ∀ seen : List String,
      dedupLoop seen l =
        dedupFirstByUrl (l.filter (fun j => decide (¬ j.url ∈ seen))) := by
  induction l with
  | nil => intro seen; simp [dedupLoop, dedupFirstByUrl]
  | cons job rest ih =>
    intro seen
    by_cases h : job.url ∈ seen
    · rw [dedupLoop, if_pos h, ih seen]
      congr 1
      simp [List.filter_cons, h]
    · have hcons : (job :: rest).filter (fun j => decide (¬ j.url ∈ seen)) =
          job :: rest.filter (fun j => decide (¬ j.url ∈ seen)) := by
        simp [List.filter_cons, h]
      rw [dedupLoop, if_neg h, ih (job.url :: seen), hcons, dedupFirstByUrl,
        List.filter_filter]
      refine congrArg (fun t => job :: dedupFirstByUrl t) (List.filter_congr ?_)
      intro k _
      by_cases h1 : k.url = job.url <;> by_cases h2 : k.url ∈ seen <;>
        simp [List.mem_cons, h1, h2]

/-- The deduplication loop returns a subsequence of its input. -/
theorem dedupLoop_sublist (l : List Job) :
    ∀ seen : List String, List.Sublist (dedupLoop seen l) l := by
  induction l with
  | nil => intro _; exact List.Sublist.refl []
  | cons job rest ih =>
    intro seen
    rw [dedupLoop]
    by_cases h : job.url ∈ seen
    · rw [if_pos h]; exact (ih seen).cons job
    · rw [if_neg h]; exact (ih (job.url :: seen)).cons₂ job

/-- Urls surviving the deduplication loop are pairwise distinct and
disjoint from the seen set. -/
theorem dedupLoop_urls_nodup (l : List Job) :
    ∀ seen : List String,
      ((dedupLoop seen l).map Job.url).Nodup ∧
      ∀ u ∈ (dedupLoop seen l).map Job.url, ¬ u ∈ seen := by
  induction l with
  | nil =>
    intro seen
    refine ⟨List.nodup_nil, ?_⟩
    intro u hu
    simp [dedupLoop] at hu
  | cons job rest ih =>
    intro seen
    rw [dedupLoop]
    by_cases h : job.url ∈ seen
    · rw [if_pos h]; exact ih seen
    · rw [if_neg h]
      obtain ⟨hnd, hni⟩ := ih (job.url :: seen)
      refine ⟨?_, ?_⟩
      · simp only [List.map_cons, List.nodup_cons]
        exact ⟨fun hmem => hni _ hmem (List.mem_cons_self _ _), hnd⟩
      · intro u hu hus
        simp only [List.map_cons, List.mem_cons] at hu
        rcases hu with rfl | hu
        · exact h hus
        · exact hni u hu (List.mem_cons_of_mem _ hus)

/-- C6: `deduplicate` keeps, for each distinct url, exactly the first
job (in input order) bearing that url: it equals the first-occurrence
function, is a subsequence of the input (so input order is preserved,
and of two jobs with the same url only the first survives), and the
output urls are pairwise distinct. -/
theorem C6_deduplicate_first_occurrence (p : JobProcessor) (jobs : List Job) :
    p.deduplicate jobs = dedupFirstByUrl jobs ∧
    List.Sublist (p.deduplicate jobs) jobs ∧
    ((p.deduplicate jobs).map Job.url).Nodup := by
  refine ⟨?_, dedupLoop_sublist jobs [], (dedupLoop_urls_nodup jobs []).1⟩
  rw [JobProcessor.deduplicate, dedupLoop_eq_dedupFirst]
  congr 1
  exact List.filter_eq_self.mpr (fun a _ => by simp)

/-! ## Ordering comparisons: claims C10 and C7 -/

/-- The company comparison is total. -/
theorem companyLe_total (a b : Job) : companyLe a b || companyLe b a := by
  unfold companyLe
  rcases le_total (strToLower a.company) (strToLower b.company) with h | h <;> simp [h]

/-- The company comparison is transitive. -/
theorem companyLe_trans (a b c : Job) :
    companyLe a b → companyLe b c → companyLe a c := by
  unfold companyLe
  intro h1 h2
  simp only [decide_eq_true_eq] at h1 h2 ⊢
  exact le_trans h1 h2

/-- The location-tier / recency comparison is total. -/
theorem keyLe_total (parseIso : String → Option Int) (a b : Job) :
    keyLe parseIso a b || keyLe parseIso b a := by
  unfold keyLe
  rcases Nat.lt_trichotomy (locationDateKey parseIso a).1 (locationDateKey parseIso b).1 with
    h | h | h
  · simp [h]
  · rcases le_total (locationDateKey parseIso a).2 (locationDateKey parseIso b).2 with h2 | h2 <;>
      simp [h, h2]
  · simp [h]

/-- The location-tier / recency comparison is transitive. -/
theorem keyLe_trans (parseIso : String → Option Int) (a b c : Job) :
    keyLe parseIso a b → keyLe parseIso b c → keyLe parseIso a c := by
  unfold keyLe
  intro h1 h2
  simp only [decide_eq_true_eq] at h1 h2 ⊢
  rcases h1 with h1 | ⟨h1e, h1le⟩ <;> rcases h2 with h2 | ⟨h2e, h2le⟩
  · exact Or.inl (h1.trans h2)
  · exact Or.inl (h2e ▸ h1)
  · exact Or.inl (h1e ▸ h2)
  · exact Or.inr ⟨h1e.trans h2e, h1le.trans h2le⟩

/-- C10: both ranking operations are stable permutations: each returns a
permutation of its input, and two jobs with equal sort keys (equal
location-tier/timestamp key, resp. equal case-folded company name) keep
their relative input order. Determinism is inherent: both are functions
of the input list alone. -/
theorem C10_sorts_stable_permutations (p : JobProcessor)
    (parseIso : String → Option Int) (jobs : List Job) :
    (p.sort_by_location_then_date parseIso jobs).Perm jobs ∧
    (p.sort_by_company jobs).Perm jobs ∧
    (∀ a b : Job, locationDateKey parseIso a = locationDateKey parseIso b →
      List.Sublist [a, b] jobs →
      List.Sublist [a, b] (p.sort_by_location_then_date parseIso jobs)) ∧
    (∀ a b : Job, strToLower a.company = strToLower b.company →
      List.Sublist [a, b] jobs → List.Sublist [a, b] (p.sort_by_company jobs)) := by
  refine ⟨List.mergeSort_perm jobs _, List.mergeSort_perm jobs _, ?_, ?_⟩
  · intro a b hk hsub
    refine List.pair_sublist_mergeSort (keyLe_trans parseIso) (keyLe_total parseIso) ?_ hsub
    unfold keyLe
    rw [hk]
    simp
  · intro a b hc hsub
    refine List.pair_sublist_mergeSort companyLe_trans companyLe_total ?_ hsub
    unfold companyLe
    rw [hc]
    simp

/-- C10 witness: the permutation conjunct at a concrete input. -/
theorem C10_sorts_stable_permutations_witness :
    (defaultProcessor.sort_by_company [jobSeniorAccountant]).Perm [jobSeniorAccountant] :=
  (C10_sorts_stable_permutations defaultProcessor (fun _ => none) [jobSeniorAccountant]).2.1

/-- Folding `min` from the right commutes with starting from a lowered
accumulator. -/
theorem foldr_min_swap (l : List Nat) :
    ∀ a b : Nat, l.foldr min (min a b) = min b (l.foldr min a) := by
  induction l with
  | nil => intro a b; exact min_comm a b
  | cons c l ih =>
    intro a b
    rw [List.foldr_cons, ih a b, List.foldr_cons]
    exact min_left_comm c b _

/-- The accumulator loop of `_get_location_priority` computes the
minimum of the matched priorities below the starting accumulator. -/
theorem foldl_min_matched (loc : String) (table : List (String × Nat)) :
    ∀ acc : Nat,
      table.foldl
        (fun best kp =>
          if strContains (strToLower loc) kp.1 then min best kp.2 else best) acc =
      ((table.filter (fun kp => strContains (strToLower loc) kp.1)).map
        Prod.snd).foldr min acc := by
  induction table with
  | nil => intro acc; rfl
  | cons kp rest ih =>
    intro acc
    by_cases h : strContains (strToLower loc) kp.1
    · have hfilter : (kp :: rest).filter (fun e => strContains (strToLower loc) e.1) =
          kp :: rest.filter (fun e => strContains (strToLower loc) e.1) := by
        simp [List.filter_cons, h]
      rw [List.foldl_cons, if_pos h, ih (min acc kp.2), hfilter, List.map_cons,
        List.foldr_cons]
      exact foldr_min_swap _ acc kp.2
    · rw [List.foldl_cons, if_neg h, ih acc]
      congr 1
      simp [List.filter_cons, h]

/-- The tier of a location is the minimum priority over the table
keywords found in the case-folded location (999 for an empty location
or when nothing matches, since the fold over an empty match list is the
accumulator 999). -/
theorem get_location_priority_min (loc : String) :
    get_location_priority loc =
      if loc = "" then 999
      else ((LOCATION_PRIORITY.filter
        (fun kp => strContains (strToLower loc) kp.1)).map Prod.snd).foldr min 999 := by
  by_cases h : loc = ""
  · simp [get_location_priority, h]
  · simp only [get_location_priority, if_neg h]
    exact foldl_min_matched loc LOCATION_PRIORITY 999

/-- C7 (amended): `sort_by_location_then_date` permutes its input into
an order sorted by the key (location tier ascending, parsed timestamp
descending), where the tier is the minimum priority over the table
keywords occurring in the case-folded location (999 when the location
is empty or unmatched), and a missing or unparsable `posted_at` is
treated as epoch timestamp 0. Hence a job of strictly smaller tier
sorts strictly earlier regardless of posting date (in particular tier 1
before tier 2), and within a tier a strictly newer timestamp sorts
strictly first — so a missing-date job sorts after every same-tier job
with a positive timestamp, though before one with a negative pre-epoch
timestamp (see the counterexample). -/
theorem C7_sort_by_location_then_date_order (p : JobProcessor)
    (parseIso : String → Option Int) (jobs : List Job) :
    (p.sort_by_location_then_date parseIso jobs).Perm jobs ∧
    (p.sort_by_location_then_date parseIso jobs).Pairwise (fun a b =>
      get_location_priority a.location < get_location_priority b.location ∨
      (get_location_priority a.location = get_location_priority b.location ∧
       date_to_timestamp parseIso (b.posted_at.getD "") ≤
         date_to_timestamp parseIso (a.posted_at.getD ""))) ∧
    (∀ loc : String, get_location_priority loc =
      if loc = "" then 999
      else ((LOCATION_PRIORITY.filter
        (fun kp => strContains (strToLower loc) kp.1)).map Prod.snd).foldr min 999) ∧
    (∀ job : Job, job.posted_at = none →
      date_to_timestamp parseIso (job.posted_at.getD "") = 0) ∧
    (∀ s : String, parseIso (replaceZ s) = none → date_to_timestamp parseIso s = 0) ∧
    (∀ i j : Fin (p.sort_by_location_then_date parseIso jobs).length,
      get_location_priority ((p.sort_by_location_then_date parseIso jobs).get i).location <
        get_location_priority ((p.sort_by_location_then_date parseIso jobs).get j).location →
      i < j) ∧
    (∀ i j : Fin (p.sort_by_location_then_date parseIso jobs).length,
      get_location_priority ((p.sort_by_location_then_date parseIso jobs).get i).location =
        get_location_priority ((p.sort_by_location_then_date parseIso jobs).get j).location →
      date_to_timestamp parseIso
          (((p.sort_by_location_then_date parseIso jobs).get j).posted_at.getD "") <
        date_to_timestamp parseIso
          (((p.sort_by_location_then_date parseIso jobs).get i).posted_at.getD "") →
      i < j) := by
  have hkey : ∀ a b : Job, keyLe parseIso a b = true →
      get_location_priority a.location < get_location_priority b.location ∨
      (get_location_priority a.location = get_location_priority b.location ∧
       date_to_timestamp parseIso (b.posted_at.getD "") ≤
         date_to_timestamp parseIso (a.posted_at.getD "")) := by
    intro a b h
    rw [keyLe, decide_eq_true_eq] at h
    simp only [locationDateKey] at h
    rcases h with h | ⟨he, hle⟩
    · exact Or.inl h
    · exact Or.inr ⟨he, neg_le_neg_iff.mp hle⟩
  have hpw : (p.sort_by_location_then_date parseIso jobs).Pairwise (fun a b =>
      get_location_priority a.location < get_location_priority b.location ∨
      (get_location_priority a.location = get_location_priority b.location ∧
       date_to_timestamp parseIso (b.posted_at.getD "") ≤
         date_to_timestamp parseIso (a.posted_at.getD ""))) :=
    (List.sorted_mergeSort (keyLe_trans parseIso) (keyLe_total parseIso) jobs).imp
      (fun hab => hkey _ _ hab)
  have hget := List.pairwise_iff_get.mp hpw
  refine ⟨List.mergeSort_perm jobs _, hpw, get_location_priority_min, ?_, ?_, ?_, ?_⟩
  · intro job h
    simp [h, date_to_timestamp]
  · intro s h
    by_cases hs : s = ""
    · simp [hs, date_to_timestamp]
    · simp [date_to_timestamp, hs, h]
  · intro i j hlt
    rcases lt_trichotomy i j with h | rfl | h
    · exact h
    · exact absurd hlt (lt_irrefl _)
    · rcases hget j i h with h2 | ⟨h2e, _⟩
      · exact absurd (hlt.trans h2) (lt_irrefl _)
      · rw [h2e] at hlt
        exact absurd hlt (lt_irrefl _)
  · intro i j he hts
    rcases lt_trichotomy i j with h | rfl | h
    · exact h
    · exact absurd hts (lt_irrefl _)
    · rcases hget j i h with h2 | ⟨_, h2le⟩
      · rw [he] at h2
        exact absurd h2 (lt_irrefl _)
      · exact absurd hts (not_lt.mpr h2le)

/-- C7 witness: the missing-date conjunct of the order theorem applied
at a concrete input. -/
theorem C7_sort_by_location_then_date_order_witness :
    date_to_timestamp (fun _ => none) (jobSeniorAccountant.posted_at.getD "") = 0 :=
  (C7_sort_by_location_then_date_order defaultProcessor (fun _ => none)
    [jobSeniorAccountant]).2.2.2.1 jobSeniorAccountant rfl

/-- C7 counterexample: a job with a parsable pre-epoch `posted_at` has a
negative timestamp, so the missing-date job (treated as epoch 0) sorts
BEFORE it within the same tier — missing or unparsable dates do not sort
last within their tier. -/
theorem C7_counterexample :
    defaultProcessor.sort_by_location_then_date parseIso1950 [jobNoDate, jobPreEpoch] =
      [jobNoDate, jobPreEpoch] ∧
    jobNoDate.posted_at = none ∧
    get_location_priority jobNoDate.location = get_location_priority jobPreEpoch.location ∧
    date_to_timestamp parseIso1950 (jobPreEpoch.posted_at.getD "") = -631152000 ∧
    date_to_timestamp parseIso1950 (jobNoDate.posted_at.getD "") = 0 := by
  refine ⟨?_, rfl, rfl, by decide, rfl⟩
  show List.mergeSort [jobNoDate, jobPreEpoch] (keyLe parseIso1950) = [jobNoDate, jobPreEpoch]
  apply List.mergeSort_of_sorted
  exact List.pairwise_pair.mpr (by decide)

/-! ## History store lemmas and claims C3, C4, C8, C9 -/

namespace JobStorage

/-- Keys of a cons cell. -/
theorem keys_cons (e : String × HistoryRecord) (st : Store) :
    keys (e :: st) = e.1 :: keys st := rfl

/-- Keys of an appended singleton. -/
theorem keys_append (st : Store) (e : String × HistoryRecord) :
    keys (st ++ [e]) = keys st ++ [e.1] := by
  simp [keys]

/-- Lookup ignores a suffix when the key is bound in the prefix. -/
theorem lookup_append_of_mem {st : Store} {id : String} (h : id ∈ keys st)
    (st₂ : Store) : lookup (st ++ st₂) id = lookup st id := by
  induction st with
  | nil => simp [keys] at h
  | cons e rest ih =>
    rw [keys_cons] at h
    by_cases he : e.1 = id
    · simp [lookup, he]
    · have h' : id ∈ keys rest := by
        rcases List.mem_cons.mp h with h1 | h1
        · exact absurd h1.symm he
        · exact h1
      simp [lookup, he, ih h']

/-- Lookup skips a prefix that does not bind the key. -/
theorem lookup_append_of_not_mem {st : Store} {id : String} (h : ¬ id ∈ keys st)
    (st₂ : Store) : lookup (st ++ st₂) id = lookup st₂ id := by
  induction st with
  | nil => rfl
  | cons e rest ih =>
    rw [keys_cons] at h
    have he : e.1 ≠ id := fun hh => h (by rw [← hh]; exact List.mem_cons_self _ _)
    have h' : ¬ id ∈ keys rest := fun hh => h (List.mem_cons_of_mem _ hh)
    simp [lookup, he, ih h']

/-- With pairwise-distinct keys (the dict invariant), lookup of a bound
key returns exactly its record. -/
theorem lookup_of_mem_nodup {st : Store} (hnd : (keys st).Nodup)
    {e : String × HistoryRecord} (he : e ∈ st) : lookup st e.1 = some e.2 := by
  induction st with
  | nil => simp at he
  | cons x rest ih =>
    rw [keys_cons, List.nodup_cons] at hnd
    rcases List.mem_cons.mp he with h1 | h1
    · subst h1; simp [lookup]
    · have hne : x.1 ≠ e.1 := by
        intro hh
        exact hnd.1 (hh ▸ List.mem_map_of_mem Prod.fst h1)
      simp [lookup, hne]
      exact ih hnd.2 h1

/-- A key is bound after the insertion loop iff it was bound before or
belongs to one of the inserted jobs. -/
theorem insertLoop_mem_keys (now : String) :
    ∀ (l : List Job) (st : Store) (id : String),
      id ∈ keys (insertLoop now st l).1 ↔ id ∈ keys st ∨ id ∈ l.map Job.id := by
  intro l
  induction l with
  | nil => intro st id; simp [insertLoop]
  | cons job rest ih =>
    intro st id
    rw [insertLoop]
    by_cases h : job.id ∈ keys st
    · rw [if_pos h, ih st id, List.map_cons]
      constructor
      · rintro (h1 | h1)
        · exact Or.inl h1
        · exact Or.inr (List.mem_cons_of_mem _ h1)
      · rintro (h1 | h1)
        · exact Or.inl h1
        · rcases List.mem_cons.mp h1 with h2 | h2
          · exact Or.inl (h2.symm ▸ h)
          · exact Or.inr h2
    · rw [if_neg h]
      show id ∈ keys (insertLoop now (st ++ [(job.id, mkRecord now job)]) rest).1 ↔ _
      rw [ih _ id, keys_append]
      simp only [List.mem_append, List.mem_singleton, List.map_cons, List.mem_cons]
      tauto

/-- The insertion loop never changes the record of an already-bound key. -/
theorem insertLoop_lookup_of_mem (now : String) :
    ∀ (l : List Job) (st : Store) (id : String), id ∈ keys st →
      lookup (insertLoop now st l).1 id = lookup st id := by
  intro l
  induction l with
  | nil => intro st id _; rfl
  | cons job rest ih =>
    intro st id h
    rw [insertLoop]
    by_cases hj : job.id ∈ keys st
    · rw [if_pos hj]; exact ih st id h
    · rw [if_neg hj]
      show lookup (insertLoop now (st ++ [(job.id, mkRecord now job)]) rest).1 id = _
      rw [ih _ id (by rw [keys_append]; exact List.mem_append_left _ h)]
      exact lookup_append_of_mem h _

/-- A previously unbound id of an inserted job ends up bound to a record
whose `first_seen` is `now`. -/
theorem insertLoop_lookup_new (now : String) :
    ∀ (l : List Job) (st : Store) (id : String),
      ¬ id ∈ keys st → id ∈ l.map Job.id →
      ∃ r : HistoryRecord,
        lookup (insertLoop now st l).1 id = some r ∧ r.first_seen = now := by
  intro l
  induction l with
  | nil => intro st id _ h; simp at h
  | cons job rest ih =>
    intro st id hnot hmem
    rw [List.map_cons] at hmem
    rw [insertLoop]
    by_cases hj : job.id ∈ keys st
    · rw [if_pos hj]
      have hne : id ≠ job.id := fun hh => hnot (hh.symm ▸ hj)
      have hmem' : id ∈ rest.map Job.id := by
        rcases List.mem_cons.mp hmem with h2 | h2
        · exact absurd h2 hne
        · exact h2
      exact ih st id hnot hmem'
    · rw [if_neg hj]
      show ∃ r, lookup (insertLoop now (st ++ [(job.id, mkRecord now job)]) rest).1 id =
        some r ∧ r.first_seen = now
      by_cases hid : id = job.id
      · have hk : id ∈ keys (st ++ [(job.id, mkRecord now job)]) := by
          rw [keys_append]
          exact List.mem_append_right _ (List.mem_singleton.mpr hid)
        rw [insertLoop_lookup_of_mem now rest _ id hk,
          lookup_append_of_not_mem hnot]
        refine ⟨mkRecord now job, ?_, rfl⟩
        simp [lookup, hid]
      · have hnot' : ¬ id ∈ keys (st ++ [(job.id, mkRecord now job)]) := by
          rw [keys_append]
          intro hh
          rcases List.mem_append.mp hh with h2 | h2
          · exact hnot h2
          · exact hid (List.mem_singleton.mp h2)
        have hmem' : id ∈ rest.map Job.id := by
          rcases List.mem_cons.mp hmem with h2 | h2
          · exact absurd h2 hid
          · exact h2
        exact ih _ id hnot' hmem'

/-- When every job id is already bound, the insertion loop is the
identity and inserts nothing. -/
theorem insertLoop_of_all_mem (now : String) :
    ∀ (l : List Job) (st : Store), (∀ job ∈ l, job.id ∈ keys st) →
      insertLoop now st l = (st, 0) := by
  intro l
  induction l with
  | nil => intro st _; rfl
  | cons job rest ih =>
    intro st h
    rw [insertLoop, if_pos (h job (List.mem_cons_self _ _))]
    exact ih st (fun j hj => h j (List.mem_cons_of_mem _ hj))

/-- Every key surviving the deletion phase is a current id. -/
theorem keys_removeClosed_subset (st : Store) (ids : List String) :
    ∀ id ∈ keys (removeClosed st ids), id ∈ ids := by
  intro id h
  rw [keys] at h
  obtain ⟨e, he, rfl⟩ := List.mem_map.mp h
  have := (List.mem_filter.mp he).2
  simpa using this

/-- Membership after the deletion phase. -/
theorem mem_removeClosed (st : Store) (ids : List String) (e : String × HistoryRecord) :
    e ∈ removeClosed st ids ↔ e ∈ st ∧ e.1 ∈ ids := by
  simp [removeClosed, List.mem_filter]

end JobStorage

/-- C3: `sync_with_current_jobs` reconciles the store to exactly the
current id set: afterwards an id is bound iff it is a current job id;
every record whose id is not current has been deleted; every current job
whose id was unbound is inserted with `first_seen = now`; and every
record whose id is current keeps its existing record unchanged. -/
theorem C3_sync_reconciles (now : String) (st : Store) (current_jobs : List Job)
    (hnd : (JobStorage.keys st).Nodup) :
    (∀ id : String,
      id ∈ JobStorage.keys (JobStorage.sync_with_current_jobs now st current_jobs) ↔
      id ∈ current_jobs.map Job.id) ∧
    (∀ e ∈ st, ¬ e.1 ∈ current_jobs.map Job.id →
      ¬ e.1 ∈ JobStorage.keys (JobStorage.sync_with_current_jobs now st current_jobs)) ∧
    (∀ job ∈ current_jobs, ¬ job.id ∈ JobStorage.keys st →
      ∃ r : HistoryRecord,
        JobStorage.lookup (JobStorage.sync_with_current_jobs now st current_jobs)
          job.id = some r ∧ r.first_seen = now) ∧
    (∀ e ∈ st, e.1 ∈ current_jobs.map Job.id →
      JobStorage.lookup (JobStorage.sync_with_current_jobs now st current_jobs) e.1 =
        some e.2) := by
  have hsub := JobStorage.keys_removeClosed_subset st (current_jobs.map Job.id)
  have hmemkeys : ∀ id : String,
      id ∈ JobStorage.keys (JobStorage.sync_with_current_jobs now st current_jobs) ↔
      id ∈ current_jobs.map Job.id := by
    intro id
    rw [JobStorage.sync_with_current_jobs, JobStorage.insertLoop_mem_keys]
    constructor
    · rintro (h | h)
      · exact hsub id h
      · exact h
    · exact Or.inr
  refine ⟨hmemkeys, ?_, ?_, ?_⟩
  · intro e _ hne hmem
    exact hne ((hmemkeys e.1).mp hmem)
  · intro job hjob hnot
    have hnot' : ¬ job.id ∈
        JobStorage.keys (JobStorage.removeClosed st (current_jobs.map Job.id)) := by
      intro hh
      rw [JobStorage.keys] at hh
      obtain ⟨e, he, heq⟩ := List.mem_map.mp hh
      exact hnot (by
        rw [JobStorage.keys]
        exact heq ▸ List.mem_map_of_mem Prod.fst (List.mem_filter.mp he).1)
    exact JobStorage.insertLoop_lookup_new now current_jobs _ job.id hnot'
      (List.mem_map_of_mem Job.id hjob)
  · intro e he hmem
    have hekept : e ∈ JobStorage.removeClosed st (current_jobs.map Job.id) :=
      (JobStorage.mem_removeClosed st _ e).mpr ⟨he, hmem⟩
    have hndkept :
        (JobStorage.keys (JobStorage.removeClosed st (current_jobs.map Job.id))).Nodup :=
      ((List.filter_sublist st).map Prod.fst).nodup hnd
    have hkkept : e.1 ∈
        JobStorage.keys (JobStorage.removeClosed st (current_jobs.map Job.id)) :=
      List.mem_map_of_mem Prod.fst hekept
    rw [JobStorage.sync_with_current_jobs,
      JobStorage.insertLoop_lookup_of_mem now current_jobs _ e.1 hkkept]
    exact JobStorage.lookup_of_mem_nodup hndkept hekept

/-- C3 witness: the reconciliation theorem applied to a concrete store
and job list, instantiated at a concrete id. -/
theorem C3_sync_reconciles_witness :
    "a" ∈ JobStorage.keys
        (JobStorage.sync_with_current_jobs "t0" [("a", recOld)] [jobSeniorAccountant]) ↔
    "a" ∈ [jobSeniorAccountant].map Job.id :=
  (C3_sync_reconciles "t0" [("a", recOld)] [jobSeniorAccountant] (by decide)).1 "a"

/-- C4: `sync` is idempotent: running it a second time with the same job
list (at any later time `now2`) leaves the stored state identical and
performs zero deletions and zero insertions. -/
theorem C4_sync_idempotent (now now2 : String) (st : Store) (current_jobs : List Job) :
    JobStorage.sync_with_current_jobs now2
        (JobStorage.sync_with_current_jobs now st current_jobs) current_jobs =
      JobStorage.sync_with_current_jobs now st current_jobs ∧
    JobStorage.sync_deleted (JobStorage.sync_with_current_jobs now st current_jobs)
      current_jobs = 0 ∧
    JobStorage.sync_inserted now2 (JobStorage.sync_with_current_jobs now st current_jobs)
      current_jobs = 0 := by
  have hall : ∀ id ∈ JobStorage.keys (JobStorage.sync_with_current_jobs now st current_jobs),
      id ∈ current_jobs.map Job.id := by
    intro id h
    rw [JobStorage.sync_with_current_jobs, JobStorage.insertLoop_mem_keys] at h
    rcases h with h | h
    · exact JobStorage.keys_removeClosed_subset st _ id h
    · exact h
  have hjobs : ∀ job ∈ current_jobs,
      job.id ∈ JobStorage.keys (JobStorage.sync_with_current_jobs now st current_jobs) := by
    intro job hjob
    rw [JobStorage.sync_with_current_jobs, JobStorage.insertLoop_mem_keys]
    exact Or.inr (List.mem_map_of_mem Job.id hjob)
  have hkeep : JobStorage.removeClosed
      (JobStorage.sync_with_current_jobs now st current_jobs) (current_jobs.map Job.id) =
      JobStorage.sync_with_current_jobs now st current_jobs := by
    refine List.filter_eq_self.mpr ?_
    intro e he
    exact decide_eq_true (hall e.1 (List.mem_map_of_mem Prod.fst he))
  refine ⟨?_, ?_, ?_⟩
  · rw [JobStorage.sync_with_current_jobs, hkeep,
      JobStorage.insertLoop_of_all_mem now2 current_jobs _ hjobs]
  · rw [JobStorage.sync_deleted, JobStorage.closedIds]
    rw [List.length_eq_zero, List.filter_eq_nil_iff]
    intro id h
    simp [hall id h]
  · rw [JobStorage.sync_inserted, hkeep,
      JobStorage.insertLoop_of_all_mem now2 current_jobs _ hjobs]

/-- C8: `cleanup(max_age_days)` keeps exactly the records whose
`first_seen` age does not exceed the threshold: a record survives iff it
was stored and its age in days is at most `max_age_days`; in particular
any record strictly older than the threshold is deleted and any record
not older is retained — independently of `sync`, which it never calls. -/
theorem C8_cleanup_age_threshold (ageInDays : String → Nat) (max_age_days : Nat)
    (st : Store) :
    (∀ e : String × HistoryRecord,
      e ∈ JobStorage.cleanup ageInDays max_age_days st ↔
        e ∈ st ∧ ageInDays e.2.first_seen ≤ max_age_days) ∧
    (∀ e ∈ st, max_age_days < ageInDays e.2.first_seen →
      ¬ e ∈ JobStorage.cleanup ageInDays max_age_days st) ∧
    (∀ e ∈ st, ageInDays e.2.first_seen ≤ max_age_days →
      e ∈ JobStorage.cleanup ageInDays max_age_days st) := by
  have hmem : ∀ e : String × HistoryRecord,
      e ∈ JobStorage.cleanup ageInDays max_age_days st ↔
        e ∈ st ∧ ageInDays e.2.first_seen ≤ max_age_days := by
    intro e
    simp [JobStorage.cleanup, List.mem_filter]
  refine ⟨hmem, ?_, ?_⟩
  · intro e _ hage hmem'
    exact absurd ((hmem e).mp hmem').2 (Nat.not_le.mpr hage)
  · intro e he hage
    exact (hmem e).mpr ⟨he, hage⟩

/-- C8 witness: under `cleanup(90)` the 91-day-old record is removed
and the 89-day-old record is retained. -/
theorem C8_cleanup_age_threshold_witness :
    (¬ ("a", rec91) ∈ JobStorage.cleanup ageC8 90 [("a", rec91), ("b", rec89)]) ∧
    ("b", rec89) ∈ JobStorage.cleanup ageC8 90 [("a", rec91), ("b", rec89)] :=
  ⟨(C8_cleanup_age_threshold ageC8 90 [("a", rec91), ("b", rec89)]).2.1
      ("a", rec91) (by decide) (by decide),
   (C8_cleanup_age_threshold ageC8 90 [("a", rec91), ("b", rec89)]).2.2
      ("b", rec89) (by decide) (by decide)⟩

/-- C9 counterexample: two read/parse failures at load time are fatal
rather than recovered: a history file with undecodable bytes raises
`UnicodeDecodeError` and a file whose top-level JSON value is not an
object (for example `null` or `[]`) raises `AttributeError` from
`data.get("jobs", \x7b\x7d)`; neither exception is named by the
`except (json.JSONDecodeError, IOError)` clause, so both escape `_load`
uncaught — no empty-store fallback, no warning. -/
theorem C9_counterexample :
    JobStorage.load JobStorage.ReadOutcome.undecodableBytes =
      Except.error "UnicodeDecodeError" ∧
    JobStorage.load JobStorage.ReadOutcome.topLevelNotObject =
      Except.error "AttributeError" ∧
    JobStorage.load JobStorage.ReadOutcome.topLevelNotObject ≠
      Except.ok ([], true) := by
  refine ⟨rfl, rfl, ?_⟩
  intro h
  exact Except.noConfusion h

/-- C9 (amended): on the read and parse failures the `except` clause of
`_load` actually catches — `IOError` while opening or reading the file
and `JSONDecodeError` on invalid JSON — the store falls back to an
empty in-memory mapping with a logged warning instead of raising, and
every query against the fallen-back empty store behaves as if no job
had ever been seen: `is_new` is true for every job, `filter_new_jobs`
keeps everything, and `get_first_seen` / `lookup` find nothing. Two
other load-time failures (`UnicodeDecodeError` on undecodable bytes,
`AttributeError` on a non-object top-level JSON value) escape the
clause and are fatal to the run — see the counterexample. -/
theorem C9_caught_failures_fall_back :
    JobStorage.load JobStorage.ReadOutcome.ioError = Except.ok ([], true) ∧
    JobStorage.load JobStorage.ReadOutcome.jsonError = Except.ok ([], true) ∧
    (∀ job : Job, JobStorage.is_new [] job = true) ∧
    (∀ jobs : List Job, JobStorage.filter_new_jobs [] jobs = jobs) ∧
    (∀ job : Job, JobStorage.get_first_seen [] job = none) ∧
    (∀ job : Job, JobStorage.lookup [] job.id = none) := by
  refine ⟨rfl, rfl, ?_, ?_, fun _ => rfl, fun _ => rfl⟩
  · intro job
    simp [JobStorage.is_new, JobStorage.keys]
  · intro jobs
    refine List.filter_eq_self.mpr ?_
    intro a _
    simp [JobStorage.is_new, JobStorage.keys]

/-- C1 (amended): in every run in which `--reset-history` is not
requested, if `send_digest` reports failure the history mapping at
process exit equals the mapping loaded at start — `sync_with_current_jobs`
runs only on success — and the exit code is 1. (With `--reset-history`
the store is cleared and saved before delivery, so a failed send can
still leave the exit state different from the loaded one; see the
counterexample.) -/
theorem C1_failed_send_preserves_store (args : Args) (parseIso : String → Option Int)
    (fetched : List Job) (st0 : Store) (send_success : Bool) (now : String)
    (hr : args.reset_history = false) (hs : send_success = false) :
    (runMain args parseIso fetched st0 send_success now).1 = st0 ∧
    (runMain args parseIso fetched st0 send_success now).2 = 1 := by
  subst hs
  simp [runMain, hr]

/-- C1 witness: a failed send without `--reset-history` leaves the
concrete loaded mapping untouched and exits with code 1. -/
theorem C1_failed_send_preserves_store_witness :
    (runMain ⟨false, false, false⟩ (fun _ => none) [] [("a", recOld)] false "t0").1 =
      [("a", recOld)] ∧
    (runMain ⟨false, false, false⟩ (fun _ => none) [] [("a", recOld)] false "t0").2 = 1 :=
  C1_failed_send_preserves_store ⟨false, false, false⟩ (fun _ => none) [] [("a", recOld)]
    false "t0" rfl rfl

/-- C1 counterexample: with `--reset-history` requested, the run clears
and saves the store before delivery is attempted, so after a failed
send the mapping at exit is empty and differs from the nonempty mapping
loaded at start, even though `sync_with_current_jobs` never ran. -/
theorem C1_counterexample :
    (runMain ⟨false, false, true⟩ (fun _ => none) [] [("a", recOld)] false "t0").1 =
      ([] : Store) ∧
    ([] : Store) ≠ [("a", recOld)] := by
  exact ⟨rfl, by decide⟩
